import Mathlib

/-!
# libHttpClient: `xmlhttp_http_task.cpp`

A shallow embedding of `Source/HTTP/XMLHttp/xmlhttp_http_task.cpp` and the
properties of its header codec (`split`, `set_headers`), of the request set-up
(`perform_async`) and of the request pump (`MakeHttpCallSingleX`,
`MakeHttpCallTick`).

Conventions of the embedding.

* Text is a list of characters (`Str`).  The conversions `utf8_from_utf16` and
  `utf16_from_utf8` change the encoding of a text, not the text, so they are
  the identity on `Str`; where a conversion can throw, the throw is an
  outcome supplied by the environment.
* A `size_t` position is a natural number and `std::string::npos` is `none`.
* A computation that may fail to return normally (a thrown exception, a loop
  that does not end) has an `Option` result, `none` standing for "does not
  return normally".
-/

namespace XmlHttp

/-! ## `std::string` primitives used by the codec -/

/-- Text: the characters of a `std::string`. -/
abbrev Str := List Char

/-- The value of `std::string::npos` as a number, `size_t(-1)`. -/
def npos : Nat := 2 ^ 64 - 1

/-- The call `s.substr(pos, n)`: the at most `n` characters from `pos` on; throws
`std::out_of_range` (here `none`) when `pos > s.size()`. -/
def substr (s : Str) (pos n : Nat) : Option Str :=
  if pos ≤ s.length then some ((s.drop pos).take n) else none

/-- Search loop of `find`: `s` is the text from position `off` on. -/
def findFrom (delim : Str) : Str → Nat → Option Nat
  | [], off => if delim.isPrefixOf [] then some off else none
  | c :: t, off =>
    if delim.isPrefixOf (c :: t) then some off else findFrom delim t (off + 1)

/-- The call `s.find(delim, pos)`: the least position `≥ pos` at which `delim` occurs
in `s`, `npos` when there is none. -/
def find (s delim : Str) (pos : Nat) : Option Nat :=
  if pos ≤ s.length then findFrom delim (s.drop pos) pos else none

/-- Search loop of `find` for a single character. -/
def findCharFrom (c : Char) : Str → Nat → Option Nat
  | [], _ => none
  | x :: t, off => if x = c then some off else findCharFrom c t (off + 1)

/-- The call `s.find(c)`: the position of the first `c` in `s`, `npos` when there is
none. -/
def find_char (s : Str) (c : Char) : Option Nat :=
  findCharFrom c s 0

/-- Search loop of `find_first_not_of`. -/
def firstNotOfFrom (set : Str) : Str → Nat → Option Nat
  | [], _ => none
  | x :: t, off =>
    if set.contains x then firstNotOfFrom set t (off + 1) else some off

/-- The call `s.find_first_not_of(set, pos)`: the least position `≥ pos` whose
character is not in `set`, `npos` when there is none. -/
def find_first_not_of (s set : Str) (pos : Nat) : Option Nat :=
  firstNotOfFrom set (s.drop pos) pos

/-- Search loop of `find_last_not_of`: looks at the positions below `n`,
from the highest down. -/
def lastNotOfBelow (s set : Str) : Nat → Option Nat
  | 0 => none
  | n + 1 =>
    match s[n]? with
    | some x => if set.contains x then lastNotOfBelow s set n else some n
    | none => lastNotOfBelow s set n

/-- The call `s.find_last_not_of(set)`: the greatest position whose character is not
in `set`, `npos` when there is none. -/
def find_last_not_of (s set : Str) : Option Nat :=
  lastNotOfBelow s set s.length

/-! ## `xmlhttp_http_task`: the header codec -/

/-- The data members of `xmlhttp_http_task` that the codec and the status
accessors touch. -/
structure xmlhttp_http_task where
  m_statusCode : Nat
  m_headerNames : List Str
  m_headerValues : List Str
  deriving DecidableEq, Repr

/-- A task as the constructor leaves it: status 0, no header stored. -/
def xmlhttp_http_task.fresh : xmlhttp_http_task :=
  { m_statusCode := 0, m_headerNames := [], m_headerValues := [] }

/-- The `while (pos != npos)` loop of `split`, with the loop variables `i`,
`pos` and `v` as arguments.  The first argument bounds the number of
iterations; `none` when it is used up (the loop has not ended) or when
`substr` throws. -/
def splitLoop (s delim : Str) : Nat → Nat → Option Nat → List Str → Option (List Str)
  | _, i, none, v => do
    let last ← substr s i s.length
    some (v ++ [last])
  | 0, _, some _, _ => none
  | fuel + 1, i, some pos, v => do
    let piece ← substr s i (pos - i)
    let i := pos + delim.length
    splitLoop s delim fuel i (find s delim i) (v ++ [piece])

/-- The function `xmlhttp_http_task::split(s, delim)`.  Every iteration of the loop moves
`i` forward when `delim` is not empty, so `s.length + 1` iterations are
enough; with an empty `delim` the source loop does not end. -/
def split (s delim : Str) : Option (List Str) :=
  splitLoop s delim (s.length + 1) 0 (find s delim 0) []

/-- The delimiter `"\r\n"` of `set_headers`. -/
def crlf : Str := ['\r', '\n']

/-- The character set `" \t"` of `set_headers`. -/
def spaceTab : Str := [' ', '\t']

/-- Body of the `for (auto& header : splitHeaders)` loop of `set_headers`:
the task after one header line.  The count `valueEndPos - valueStartPos + 1`
is computed on natural numbers; `valueEndPos_ge_valueStartPos` below shows
that `valueEndPos` is a position not below `valueStartPos` whenever the count
is computed, so that the `size_t` arithmetic of the source does not wrap. -/
def set_headers_line (t : xmlhttp_http_task) (header : Str) : Option xmlhttp_http_task :=
  match find_char header ':' with
  | none => some t
  | some colonPos =>
    if colonPos = 0 then some t
    else do
      let name ← substr header 0 colonPos
      let t := { t with m_headerNames := t.m_headerNames ++ [name] }
      match find_first_not_of header spaceTab (colonPos + 1) with
      | some valueStartPos =>
        let count :=
          match find_last_not_of header spaceTab with
          | some valueEndPos => valueEndPos - valueStartPos + 1
          | none => npos - valueStartPos + 1
        let value ← substr header valueStartPos count
        some { t with m_headerValues := t.m_headerValues ++ [value] }
      | none => some { t with m_headerValues := t.m_headerValues ++ [[]] }

/-- The function `xmlhttp_http_task::set_headers(allResponseHeaders)`: the task after the
call; `none` when the call does not return normally or the final `ASSERT`
fails. -/
def set_headers (t : xmlhttp_http_task) (allResponseHeaders : Str) : Option xmlhttp_http_task := do
  let allHeaders := allResponseHeaders
  let splitHeaders ← split allHeaders crlf
  let t ← splitHeaders.foldlM set_headers_line t
  if t.m_headerNames.length = t.m_headerValues.length then some t else none

/-- The function `xmlhttp_http_task::set_status_code(statusCode)`. -/
def set_status_code (t : xmlhttp_http_task) (statusCode : Nat) : xmlhttp_http_task :=
  { t with m_statusCode := statusCode }

/-- The function `get_status_code()`. -/
def get_status_code (t : xmlhttp_http_task) : Nat := t.m_statusCode

/-- A call of one of the two member functions that change a task after its
construction. -/
inductive TaskCall
  | on_status (statusCode : Nat)
  | on_headers (allResponseHeaders : Str)
  deriving DecidableEq, Repr

/-- The task after a call. -/
def TaskCall.run (t : xmlhttp_http_task) : TaskCall → Option xmlhttp_http_task
  | TaskCall.on_status statusCode => some (set_status_code t statusCode)
  | TaskCall.on_headers blob => set_headers t blob

/-- The function `get_headers_names()`. -/
def get_headers_names (t : xmlhttp_http_task) : List Str := t.m_headerNames

/-- The function `get_headers_values()`. -/
def get_headers_values (t : xmlhttp_http_task) : List Str := t.m_headerValues

/-! ## The header codec in the words of the specification -/

/-- The lines of a text, CR LF being the line separator: the text is cut at
every CR LF, read from the left, and a text without CR LF is one line. -/
def crlfLines : Str → List Str
  | [] => [[]]
  | [c] => [[c]]
  | c :: d :: rest =>
    if c = '\r' ∧ d = '\n' then [] :: crlfLines rest
    else
      match crlfLines (d :: rest) with
      | [] => [[c]]
      | l :: ls => (c :: l) :: ls

/-- A space or a tab. -/
def isSpaceTab (c : Char) : Bool := c = ' ' || c = '\t'

/-- A header line that yields a pair: it has a colon and its first character
is not the colon. -/
def validHeaderLine (l : Str) : Bool := l.contains ':' && l.head? != some ':'

/-- The text before the first colon of a line. -/
def lineName (l : Str) : Str := l.takeWhile (· != ':')

/-- The text after the first colon of a line. -/
def afterColon (l : Str) : Str := (l.dropWhile (· != ':')).drop 1

/-- A text without its leading and its trailing spaces and tabs. -/
def trimSpaceTab (v : Str) : Str := (v.dropWhile isSpaceTab).rdropWhile isSpaceTab

/-- The value of a header line: the text after the first colon, trimmed. -/
def lineValue (l : Str) : Str := trimSpaceTab (afterColon l)

/-! ## `xmlhttp_http_task::perform_async` -/

/-- An `HRESULT`: a signed 32-bit code, a failure when negative. -/
abbrev HRESULT := Int

/-- The macro `FAILED(hr)`. -/
def FAILED (hr : HRESULT) : Bool := decide (hr < 0)

/-- The code `S_OK`. -/
def S_OK : HRESULT := 0

/-- The code `E_FAIL`, 0x80004005. -/
def E_FAIL : HRESULT := -2147467259

/-- The code `E_OUTOFMEMORY`, 0x8007000E. -/
def E_OUTOFMEMORY : HRESULT := -2147024882

/-- Conversion of an `HRESULT` to `uint32_t`. -/
def toUInt32 (hr : HRESULT) : Nat := (hr % 2 ^ 32).toNat

/-- What a statement of the `try` block can throw, by the `catch` clause
that receives it. -/
inductive Exc
  | bad_alloc
  | exception
  | other
  deriving DecidableEq, Repr

/-- The properties that `perform_async` sets on the request. -/
inductive XhrProperty
  | NO_CRED_PROMPT
  | TIMEOUT
  | ONDATA_THRESHOLD
  deriving DecidableEq, Repr

/-- The calls that `perform_async` makes on its collaborators, with the
result where the source looks at it: the transport (`CoCreateInstance` and
the methods of `IXMLHTTPRequest2`), the request body stream, the call
(`HCHttpCallResponseSetNetworkErrorCode`) and the completion handle
(`XAsyncComplete`). -/
inductive Event
  | CoCreateInstance (hr : HRESULT)
  | Open (method url : Str) (hr : HRESULT)
  | SetProperty (prop : XhrProperty) (value : Nat)
  | SetRequestHeader (name value : Str)
  | SetCustomResponseStream (hr : HRESULT)
  | RequestStreamInit (hr : HRESULT)
  | Send (body : Bool) (size : Nat) (hr : HRESULT)
  | SetNetworkErrorCode (networkErrorCode : HRESULT) (platformNetworkErrorCode : Nat)
  | XAsyncComplete (result : HRESULT) (requiredBufferSize : Nat)
  deriving DecidableEq, Repr

/-- What `perform_async` reads from the call handle.  An entry of `headers`
is the pair of pointers that `HCHttpCallRequestGetHeaderAtIndex` yields, a
null pointer being `none`. -/
structure HCCall where
  method : Str
  url : Str
  headers : List (Option Str × Option Str)
  timeoutInSeconds : Nat
  requestBodySize : Nat
  requestBodyReadFunction : Bool

/-- The build configuration and the outcomes that the collaborators report
to one run of `perform_async`.

* `setupThrow`: `shared_from_this`, the conversions of the method and of the
  URL, and the creation of the request callback;
* `headerThrow i`: the conversions of the `i`-th header;
* `responseStreamThrow`, `requestStreamThrow`: the creation of the two
  streams;
* `requestStreamNull`: `Make<http_request_stream>` returned a null pointer. -/
structure Env where
  XHR_PROP_ONDATA_NEVER : Option Nat
  coCreateInstance : HRESULT
  setupThrow : Option Exc
  openResult : HRESULT
  headerThrow : Nat → Option Exc
  responseStreamThrow : Option Exc
  setCustomResponseStream : HRESULT
  requestStreamThrow : Option Exc
  requestStreamNull : Bool
  initResult : HRESULT
  sendResult : HRESULT

/-- Modelled from the spec: `xbox::httpclient::str_icmp` is declared in
`utils.h`, which is not part of the sources at hand.  The specification has
the header name compared ignoring case; as the C function of that name, the
result is 0 when the two texts are equal up to the case of ASCII letters and
otherwise the difference at the first position where they differ. -/
def str_icmp : Str → Str → Int
  | [], [] => 0
  | [], _ :: _ => -1
  | _ :: _, [] => 1
  | a :: as, b :: bs =>
    if a.toLower = b.toLower then str_icmp as bs
    else (a.toLower.toNat : Int) - (b.toLower.toNat : Int)

/-- The literal `"User-Agent"`. -/
def userAgentName : Str := "User-Agent".toList

/-- The literal `"libHttpClient/1.0.0.0"`. -/
def defaultUserAgent : Str := "libHttpClient/1.0.0.0".toList

/-- A part of a run of the `try` block: the calls made, and the exception
that ended the part if one was thrown. -/
abbrev Run := List Event × Option Exc

/-- One call, then the rest of the run. -/
def Run.emit (e : Event) (k : Run) : Run := (e :: k.1, k.2)

/-- Some calls, then the rest of the run. -/
def Run.emits (es : List Event) (k : Run) : Run := (es ++ k.1, k.2)

/-- The end of the `try` block, or a `return`. -/
def Run.done : Run := ([], none)

/-- A thrown exception. -/
def Run.throw (e : Exc) : Run := ([], some e)

/-- The statements of an `if (FAILED(hr))` block:
`HCHttpCallResponseSetNetworkErrorCode`, `XAsyncComplete(asyncBlock, S_OK, 0)`
and `return`. -/
def failWith (networkErrorCode : HRESULT) (platformNetworkErrorCode : Nat) : Run :=
  ([Event.SetNetworkErrorCode networkErrorCode platformNetworkErrorCode,
    Event.XAsyncComplete S_OK 0], none)

/-- The loop `for (uint32_t i = 0; i < numHeaders; i++)`: the headers from
index `i` on and the current `userAgentSet`; the result is the calls made and
the final `userAgentSet`, or the exception thrown. -/
def headerLoop (env : Env) :
    List (Option Str × Option Str) → Nat → Bool → List Event × Except Exc Bool
  | [], _, userAgentSet => ([], .ok userAgentSet)
  | (iHeaderName, iHeaderValue) :: rest, i, userAgentSet =>
    match iHeaderName, iHeaderValue with
    | some name, some value =>
      let userAgentSet := if str_icmp name userAgentName = 0 then true else userAgentSet
      match env.headerThrow i with
      | some e => ([], .error e)
      | none =>
        let r := headerLoop env rest (i + 1) userAgentSet
        (Event.SetRequestHeader name value :: r.1, r.2)
    | _, _ => headerLoop env rest (i + 1) userAgentSet

/-- The `try` block from `SetCustomResponseStream` on. -/
def sendPhase (call : HCCall) (env : Env) : Run :=
  match env.responseStreamThrow with
  | some e => Run.throw e
  | none =>
    Run.emit (Event.SetCustomResponseStream env.setCustomResponseStream) <|
    if FAILED env.setCustomResponseStream then
      failWith env.setCustomResponseStream (toUInt32 env.setCustomResponseStream)
    else if 0 < call.requestBodySize ∧ call.requestBodyReadFunction = true then
      match env.requestStreamThrow with
      | some e => Run.throw e
      | none =>
        let hr := if env.requestStreamNull then E_OUTOFMEMORY else env.initResult
        Run.emits
          (if env.requestStreamNull then [] else [Event.RequestStreamInit env.initResult]) <|
        if FAILED hr then failWith E_FAIL (toUInt32 hr)
        else
          Run.emit (Event.Send true call.requestBodySize env.sendResult) <|
          if FAILED env.sendResult then failWith env.sendResult (toUInt32 env.sendResult)
          else Run.done
    else
      Run.emit (Event.Send false 0 env.sendResult) <|
      if FAILED env.sendResult then failWith env.sendResult (toUInt32 env.sendResult)
      else Run.done

/-- The `try` block of `perform_async`. -/
def perform_async_try (call : HCCall) (env : Env) : Run :=
  Run.emit (Event.CoCreateInstance env.coCreateInstance) <|
  if FAILED env.coCreateInstance then
    failWith env.coCreateInstance (toUInt32 env.coCreateInstance)
  else
    match env.setupThrow with
    | some e => Run.throw e
    | none =>
      Run.emit (Event.Open call.method call.url env.openResult) <|
      if FAILED env.openResult then failWith env.openResult (toUInt32 env.openResult)
      else
        Run.emit (Event.SetProperty XhrProperty.NO_CRED_PROMPT 1) <|
        let timeout := (call.timeoutInSeconds * 1000) % 2 ^ 32
        Run.emit (Event.SetProperty XhrProperty.TIMEOUT timeout) <|
        Run.emits
          (match env.XHR_PROP_ONDATA_NEVER with
           | some never => [Event.SetProperty XhrProperty.ONDATA_THRESHOLD never]
           | none => []) <|
        let r := headerLoop env call.headers 0 false
        Run.emits r.1 <|
        match r.2 with
        | .error e => Run.throw e
        | .ok userAgentSet =>
          Run.emits
            (if userAgentSet then []
             else [Event.SetRequestHeader userAgentName defaultUserAgent]) <|
          sendPhase call env

/-- The `catch` clauses of `perform_async`. -/
def catchClause : Exc → List Event
  | Exc.bad_alloc =>
    [Event.SetNetworkErrorCode E_OUTOFMEMORY (toUInt32 E_OUTOFMEMORY),
     Event.XAsyncComplete E_OUTOFMEMORY 0]
  | Exc.exception =>
    [Event.SetNetworkErrorCode E_FAIL (toUInt32 E_FAIL), Event.XAsyncComplete E_FAIL 0]
  | Exc.other =>
    [Event.SetNetworkErrorCode E_FAIL (toUInt32 E_FAIL), Event.XAsyncComplete E_FAIL 0]

/-- The calls of a run of the `try` block followed by those of the `catch`
clause that receives its exception, if it threw one. -/
def Run.handled (r : Run) : List Event :=
  match r.2 with
  | none => r.1
  | some e => r.1 ++ catchClause e

/-- The function `xmlhttp_http_task::perform_async(asyncBlock, call)`: the calls it makes
on its collaborators, in order. -/
def perform_async (call : HCCall) (env : Env) : List Event :=
  (perform_async_try call env).handled

/-! ### Vocabulary of the properties of `perform_async` -/

/-- The call is `XAsyncComplete`. -/
def Event.isComplete : Event → Bool
  | Event.XAsyncComplete _ _ => true
  | _ => false

/-- The number of times the completion handle is signalled. -/
def completions (tr : List Event) : Nat := tr.countP Event.isComplete

/-- The call is made on the transport or on the request body stream. -/
def Event.isTransportCall : Event → Bool
  | Event.SetNetworkErrorCode _ _ => false
  | Event.XAsyncComplete _ _ => false
  | _ => true

/-- The call is one of the steps whose result `perform_async` checks after
the creation of the transport (open, response-stream install, body-stream
init, send), and it failed. -/
def Event.isFailedStep : Event → Bool
  | Event.Open _ _ hr => FAILED hr
  | Event.SetCustomResponseStream hr => FAILED hr
  | Event.RequestStreamInit hr => FAILED hr
  | Event.Send _ _ hr => FAILED hr
  | _ => false

/-- The name and the value of a set-request-header call. -/
def Event.header? : Event → Option (Str × Str)
  | Event.SetRequestHeader name value => some (name, value)
  | _ => none

/-- The entries of a header list with a name and a value, in order. -/
def nonNullHeaders (hs : List (Option Str × Option Str)) : List (Str × Str) :=
  hs.filterMap fun h =>
    match h.1, h.2 with
    | some name, some value => some (name, value)
    | _, _ => none

/-- The headers that the descriptor supplies: the entries with a name and a
value, in descriptor order. -/
def suppliedHeaders (call : HCCall) : List (Str × Str) :=
  nonNullHeaders call.headers

/-- The name is `User-Agent` up to the case of its letters. -/
def isUserAgent (name : Str) : Bool :=
  name.map Char.toLower == userAgentName.map Char.toLower

/-- No conversion of a supplied header throws: the headers from index `i`
on. -/
def headersNoThrow (env : Env) : List (Option Str × Option Str) → Nat → Bool
  | [], _ => true
  | (iHeaderName, iHeaderValue) :: rest, i =>
    match iHeaderName, iHeaderValue with
    | some _, some _ => (env.headerThrow i).isNone && headersNoThrow env rest (i + 1)
    | _, _ => headersNoThrow env rest (i + 1)

/-- The descriptor declares a body and has a function to read it. -/
def hasBody (call : HCCall) : Bool :=
  decide (0 < call.requestBodySize) && call.requestBodyReadFunction

/-- The steps from the response-stream install on succeed: the creation and
the install of the response stream, the creation and the init of the request
body stream when there is a body, and send. -/
def sendSucceeds (call : HCCall) (env : Env) : Bool :=
  env.responseStreamThrow.isNone && !FAILED env.setCustomResponseStream &&
  (!hasBody call ||
    (env.requestStreamThrow.isNone && !env.requestStreamNull && !FAILED env.initResult)) &&
  !FAILED env.sendResult

/-- Every set-up step that the descriptor calls for succeeds: the creation
of the transport, open, the conversions of the supplied headers, and the
steps from the response-stream install on; nothing throws. -/
def allSucceed (call : HCCall) (env : Env) : Bool :=
  !FAILED env.coCreateInstance && env.setupThrow.isNone && !FAILED env.openResult &&
  headersNoThrow env call.headers 0 && sendSucceeds call env

/-- The completion handle is signalled as specified in a sequence of calls:
never when every step succeeded; otherwise once, as the last call, right
after the network error code of the call has been set. -/
def CompletesAsSpecified (ok : Bool) (tr : List Event) : Prop :=
  completions tr = (if ok then 0 else 1) ∧
  (ok = false → ∃ pre code platform result,
    tr = pre ++ [Event.SetNetworkErrorCode code platform, Event.XAsyncComplete result 0] ∧
    completions pre = 0)

/-- No call on the transport or on the body stream follows the first failed
step of a sequence of calls. -/
def noCallAfterFailure : List Event → Bool
  | [] => true
  | e :: rest =>
    if e.isFailedStep then rest.all (fun x => !x.isTransportCall)
    else noCallAfterFailure rest

/-- An environment in which every step succeeds and nothing throws. -/
def Env.allOk : Env :=
  { XHR_PROP_ONDATA_NEVER := some 0
    coCreateInstance := S_OK
    setupThrow := none
    openResult := S_OK
    headerThrow := fun _ => none
    responseStreamThrow := none
    setCustomResponseStream := S_OK
    requestStreamThrow := none
    requestStreamNull := false
    initResult := S_OK
    sendResult := S_OK }

/-- A `GET` call of the given URL with the given headers and time-out, and
no body. -/
def HCCall.get (url : Str) (headers : List (Str × Str)) (timeoutInSeconds : Nat) : HCCall :=
  { method := "GET".toList
    url := url
    headers := headers.map fun h => (some h.1, some h.2)
    timeoutInSeconds := timeoutInSeconds
    requestBodySize := 0
    requestBodyReadFunction := false }

/-! ## The request pump: `MakeHttpCallSingleX` and `MakeHttpCallTick` -/

/-- The static state of the pump. `launched` lists the URLs passed to
`HCHttpCallPerformAsync` so far, and `completed` counts the completion
callbacks that have run. -/
structure PumpState where
  queuedRequests : Int
  uqueue : List Str
  launched : List Str
  completed : Nat
  deriving DecidableEq, Repr

/-- The state before the first tick, with the given backlog. -/
def PumpState.init (urls : List Str) : PumpState :=
  { queuedRequests := 0, uqueue := urls, launched := [], completed := 0 }

/-- The statement `queuedRequests++` of `MakeHttpCallSingleX`. -/
def incrementQueued (s : PumpState) : PumpState :=
  { s with queuedRequests := s.queuedRequests + 1 }

/-- The creation of the call and `HCHttpCallPerformAsync(call, asyncBlock)`
at the end of `MakeHttpCallSingleX`. -/
def performAsync (s : PumpState) (url : Str) : PumpState :=
  { s with launched := s.launched ++ [url] }

/-- The function `MakeHttpCallSingleX(url)`: the increment of the counter, then the
creation of the call (method `GET`, two fixed headers, the completion
callback) and its launch. -/
def MakeHttpCallSingleX (s : PumpState) (url : Str) : PumpState :=
  performAsync (incrementQueued s) url

/-- The statement `queuedRequests--` of the completion callback that
`MakeHttpCallSingleX` installs. -/
def completionCallback (s : PumpState) : PumpState :=
  { s with queuedRequests := s.queuedRequests - 1, completed := s.completed + 1 }

/-- The `while` loop of `MakeHttpCallTick`, run without interruption.  The
first argument bounds the number of iterations; `none` when it is used up
and the loop has not ended. -/
def MakeHttpCallTickLoop : Nat → PumpState → Option PumpState
  | 0, s => if s.queuedRequests < 16 ∧ s.uqueue ≠ [] then none else some s
  | fuel + 1, s =>
    if s.queuedRequests < 16 then
      match s.uqueue with
      | [] => some s
      | url :: rest =>
        MakeHttpCallTickLoop fuel (MakeHttpCallSingleX { s with uqueue := rest } url)
    else some s

/-- The function `MakeHttpCallTick()` with no completion callback running meanwhile.
Every iteration pops one URL, so as many iterations as the backlog is long
are enough. -/
def MakeHttpCallTick (s : PumpState) : Option PumpState :=
  MakeHttpCallTickLoop s.uqueue.length s

/-- Where the pump thread stands. -/
inductive TickPc
  | idle
  | loopTest
  | popFront
  | callSingleX (url : Str)
  | callPerformAsync (url : Str)
  deriving DecidableEq, Repr

/-- The pump and the thread that runs `MakeHttpCallTick`. -/
structure PumpSys where
  st : PumpState
  pc : TickPc
  deriving DecidableEq, Repr

/-- The system before the first tick. -/
def PumpSys.init (urls : List Str) : PumpSys :=
  { st := PumpState.init urls, pc := TickPc.idle }

/-- The next step of the pump thread: the call of `MakeHttpCallTick`, the
test of the loop, the pop, the increment and the launch are steps of their
own. -/
def tickStep (s : PumpSys) : PumpSys :=
  match s.pc with
  | TickPc.idle => { s with pc := TickPc.loopTest }
  | TickPc.loopTest =>
    if s.st.queuedRequests < 16 ∧ s.st.uqueue ≠ [] then { s with pc := TickPc.popFront }
    else { s with pc := TickPc.idle }
  | TickPc.popFront =>
    match s.st.uqueue with
    | [] => s
    | url :: rest => { st := { s.st with uqueue := rest }, pc := TickPc.callSingleX url }
  | TickPc.callSingleX url =>
    { st := incrementQueued s.st, pc := TickPc.callPerformAsync url }
  | TickPc.callPerformAsync url =>
    { st := performAsync s.st url, pc := TickPc.loopTest }

/-- A completion callback runs: possible when a launched request has not
completed yet, one callback per launched request. -/
def completeStep (s : PumpSys) : PumpSys :=
  if s.st.completed < s.st.launched.length then { s with st := completionCallback s.st }
  else s

/-- The steps of the system. -/
inductive Action
  | tick
  | complete
  deriving DecidableEq, Repr

/-- One step of the system. -/
def step (s : PumpSys) : Action → PumpSys
  | Action.tick => tickStep s
  | Action.complete => completeStep s

/-- The system after a sequence of steps. -/
def runSteps (s : PumpSys) (acts : List Action) : PumpSys :=
  acts.foldl step s

/-- The invariant of the pump: the counter is the number of requests
launched and not completed, one more between the increment and the launch;
it is at most 15 between a passed loop test and the increment, and at most
16 everywhere. -/
def pumpInv (s : PumpSys) : Prop :=
  s.st.completed ≤ s.st.launched.length ∧
  match s.pc with
  | TickPc.idle =>
    s.st.queuedRequests = (s.st.launched.length : Int) - s.st.completed ∧
      s.st.queuedRequests ≤ 16
  | TickPc.loopTest =>
    s.st.queuedRequests = (s.st.launched.length : Int) - s.st.completed ∧
      s.st.queuedRequests ≤ 16
  | TickPc.popFront =>
    s.st.queuedRequests = (s.st.launched.length : Int) - s.st.completed ∧
      s.st.queuedRequests ≤ 15
  | TickPc.callSingleX _ =>
    s.st.queuedRequests = (s.st.launched.length : Int) - s.st.completed ∧
      s.st.queuedRequests ≤ 15
  | TickPc.callPerformAsync _ =>
    s.st.queuedRequests = (s.st.launched.length : Int) - s.st.completed + 1 ∧
      s.st.queuedRequests ≤ 16

/-! ## Lemmas on the string primitives -/

theorem crlf_isPrefixOf_cons_cons (c d : Char) (rest : Str) :
    crlf.isPrefixOf (c :: d :: rest) = (decide (c = '\r') && decide (d = '\n')) := by
  have h1 : ('\r' == c) = decide (c = '\r') := by
    by_cases h : c = '\r'
    · simp [h]
    · have h' : ¬ '\r' = c := fun e => h e.symm
      simp [h, h']
  have h2 : ('\n' == d) = decide (d = '\n') := by
    by_cases h : d = '\n'
    · simp [h]
    · have h' : ¬ '\n' = d := fun e => h e.symm
      simp [h, h']
  simp only [crlf, List.isPrefixOf, h1, h2, Bool.and_true]

theorem crlfLines_ne_nil (t : Str) : crlfLines t ≠ [] := by
  induction t using crlfLines.induct with
  | case1 => simp [crlfLines]
  | case2 c => simp [crlfLines]
  | case3 c d rest h ih => simp [crlfLines, h]
  | case4 c d rest h ih1 ih2 => exact absurd ih1 ih2
  | case5 c d rest h l ls ih1 ih2 => simp [crlfLines, h, ih1]

theorem findFrom_crlf_none (t : Str) (off : Nat) (h : findFrom crlf t off = none) :
    crlfLines t = [t] := by
  induction t using crlfLines.induct generalizing off with
  | case1 => simp [crlfLines]
  | case2 c => simp [crlfLines]
  | case3 c d rest hcd ih =>
    simp [findFrom, crlf_isPrefixOf_cons_cons, hcd.1, hcd.2] at h
  | case4 c d rest hcd ih1 ih2 => exact absurd ih1 (crlfLines_ne_nil _)
  | case5 c d rest hcd l ls ih1 ih2 =>
    have hp : (decide (c = '\r') && decide (d = '\n')) = false := by
      simpa using hcd
    rw [findFrom, crlf_isPrefixOf_cons_cons, hp] at h
    have := ih2 (off + 1) (by simpa using h)
    rw [ih1] at this
    simp only [List.cons.injEq, and_true] at this
    simp [crlfLines, hcd, ih1, this.1, this.2]

theorem findFrom_crlf_some (t : Str) (off p : Nat) (h : findFrom crlf t off = some p) :
    ∃ k, p = off + k ∧ k + 2 ≤ t.length ∧
      crlfLines t = t.take k :: crlfLines (t.drop (k + 2)) := by
  induction t using crlfLines.induct generalizing off with
  | case1 => simp [findFrom, crlf, List.isPrefixOf] at h
  | case2 c => simp [findFrom, crlf, List.isPrefixOf] at h
  | case3 c d rest hcd ih =>
    refine ⟨0, ?_, by simp, ?_⟩
    · simp [findFrom, crlf_isPrefixOf_cons_cons, hcd.1, hcd.2] at h
      omega
    · simp [crlfLines, hcd]
  | case4 c d rest hcd ih1 ih2 => exact absurd ih1 (crlfLines_ne_nil _)
  | case5 c d rest hcd l ls ih1 ih2 =>
    have hp : (decide (c = '\r') && decide (d = '\n')) = false := by
      simpa using hcd
    rw [findFrom, crlf_isPrefixOf_cons_cons, hp] at h
    obtain ⟨k, hk, hlen, hl⟩ := ih2 (off + 1) (by simpa using h)
    refine ⟨k + 1, by omega, by simpa using hlen, ?_⟩
    rw [ih1] at hl
    simp only [List.cons.injEq] at hl
    have hdrop : List.drop (k + 1 + 2) (c :: d :: rest) = List.drop (k + 2) (d :: rest) := by
      simp
    rw [hdrop]
    simp [crlfLines, hcd, ih1, hl.1, hl.2]

/-- The loop of `split` on the delimiter CR LF returns, and what it returns
is the pieces so far followed by the lines of the rest of the text. -/
theorem splitLoop_crlf (s : Str) (fuel i : Nat) (v : List Str)
    (hi : i ≤ s.length) (hf : s.length - i < fuel) :
    splitLoop s crlf fuel i (find s crlf i) v = some (v ++ crlfLines (s.drop i)) := by
  induction fuel generalizing i v with
  | zero => omega
  | succ fuel ih =>
    cases hfind : find s crlf i with
    | none =>
      have h1 : findFrom crlf (s.drop i) i = none := by
        simpa [find, hi] using hfind
      simp [splitLoop, substr, hi, findFrom_crlf_none _ _ h1]
    | some pos =>
      have h1 : findFrom crlf (s.drop i) i = some pos := by
        simpa [find, hi] using hfind
      obtain ⟨k, hk, hlen, hl⟩ := findFrom_crlf_some _ _ _ h1
      have hlen2 : i + k + 2 ≤ s.length := by
        simp at hlen; omega
      have hik : pos - i = k := by omega
      have hnext : pos + crlf.length = i + (k + 2) := by simp [crlf]; omega
      rw [splitLoop]
      simp only [substr, hi, if_true, Option.bind_eq_bind, Option.some_bind, hik, hnext]
      rw [ih (i + (k + 2)) _ (by omega) (by omega), hl]
      simp [List.drop_drop, Nat.add_comm]

/-- The function `split` on CR LF returns the lines of the text. -/
theorem split_crlf (s : Str) : split s crlf = some (crlfLines s) := by
  have := splitLoop_crlf s (s.length + 1) 0 [] (Nat.zero_le _) (by omega)
  simpa [split] using this

theorem findCharFrom_eq (c : Char) (s : Str) (off : Nat) :
    findCharFrom c s off =
      if c ∈ s then some (off + (s.takeWhile (· != c)).length) else none := by
  induction s generalizing off with
  | nil => simp [findCharFrom]
  | cons x t ih =>
    by_cases hx : x = c
    · simp [findCharFrom, hx]
    · have hx' : ¬ c = x := fun e => hx e.symm
      simp only [findCharFrom, hx, if_false, ih, List.mem_cons, hx', false_or]
      by_cases hm : c ∈ t
      · simp [hm, List.takeWhile_cons, hx]; omega
      · simp [hm]

theorem spaceTab_contains (x : Char) : spaceTab.contains x = isSpaceTab x := by
  simp [spaceTab, isSpaceTab, List.contains, List.elem_eq_mem]

theorem firstNotOfFrom_eq (a : Str) (off : Nat) :
    firstNotOfFrom spaceTab a off =
      if a.dropWhile isSpaceTab = [] then none
      else some (off + (a.takeWhile isSpaceTab).length) := by
  induction a generalizing off with
  | nil => simp [firstNotOfFrom]
  | cons x t ih =>
    by_cases hx : isSpaceTab x = true
    · simp only [firstNotOfFrom, spaceTab_contains, hx, if_true, ih, List.dropWhile_cons,
        List.takeWhile_cons, List.length_cons]
      split_ifs <;> simp; omega
    · rw [firstNotOfFrom, spaceTab_contains]
      simp [hx, List.dropWhile_cons, List.takeWhile_cons]

theorem lastNotOfBelow_append (l r : Str) :
    lastNotOfBelow (l ++ r) spaceTab l.length =
      if l.rdropWhile isSpaceTab = [] then none
      else some ((l.rdropWhile isSpaceTab).length - 1) := by
  induction l using List.reverseRecOn generalizing r with
  | nil => simp [lastNotOfBelow]
  | append_singleton l x ih =>
    have hget : (l ++ [x] ++ r)[l.length]? = some x := by
      rw [List.append_assoc, List.getElem?_append_right (Nat.le_refl _)]
      simp
    rw [List.length_append, List.length_singleton, lastNotOfBelow, hget]
    by_cases hx : isSpaceTab x = true
    · simp only [spaceTab_contains, hx, if_true]
      rw [List.append_assoc, ih, List.rdropWhile_concat_pos _ _ _ hx]
    · simp only [spaceTab_contains, hx]
      rw [List.rdropWhile_concat_neg _ _ _ hx]
      simp

theorem find_last_not_of_eq (s : Str) :
    find_last_not_of s spaceTab =
      if s.rdropWhile isSpaceTab = [] then none
      else some ((s.rdropWhile isSpaceTab).length - 1) := by
  have := lastNotOfBelow_append s []
  simpa [find_last_not_of] using this

theorem rdropWhile_append_of_ne_nil (p : Char → Bool) (pre b : Str)
    (h : b.rdropWhile p ≠ []) : (pre ++ b).rdropWhile p = pre ++ b.rdropWhile p := by
  induction b using List.reverseRecOn with
  | nil => simp at h
  | append_singleton b x ih =>
    by_cases hx : p x = true
    · rw [List.rdropWhile_concat_pos _ _ _ hx] at h
      rw [← List.append_assoc, List.rdropWhile_concat_pos _ _ _ hx,
        List.rdropWhile_concat_pos _ _ _ hx, ih h]
    · rw [← List.append_assoc, List.rdropWhile_concat_neg _ _ _ hx,
        List.rdropWhile_concat_neg _ _ _ hx, List.append_assoc]

theorem dropWhile_head_not (p : Char → Bool) (a : Str) (x : Char) (r : Str)
    (h : a.dropWhile p = x :: r) : ¬ p x = true := by
  induction a with
  | nil => simp at h
  | cons y t ih =>
    by_cases hy : p y = true
    · rw [List.dropWhile_cons_of_pos hy] at h; exact ih h
    · rw [List.dropWhile_cons_of_neg hy] at h
      simp only [List.cons.injEq] at h
      rw [← h.1]; exact hy

theorem rdropWhile_dropWhile_ne_nil (p : Char → Bool) (a : Str)
    (h : a.dropWhile p ≠ []) : (a.dropWhile p).rdropWhile p ≠ [] := by
  cases hb : a.dropWhile p with
  | nil => exact absurd hb h
  | cons x r =>
    intro hnil
    rw [List.rdropWhile_eq_nil_iff] at hnil
    exact dropWhile_head_not p a x r hb (hnil x (List.mem_cons_self _ _))

theorem drop_length_takeWhile (p : Char → Bool) (l : Str) :
    l.drop (l.takeWhile p).length = l.dropWhile p := by
  induction l with
  | nil => simp
  | cons x t ih =>
    by_cases hx : p x = true
    · simp [List.takeWhile_cons, List.dropWhile_cons, hx, ih]
    · simp [List.takeWhile_cons, List.dropWhile_cons, hx]

theorem take_length_takeWhile (p : Char → Bool) (l : Str) :
    l.take (l.takeWhile p).length = l.takeWhile p := by
  induction l with
  | nil => simp
  | cons x t ih =>
    by_cases hx : p x = true
    · simp [List.takeWhile_cons, hx, ih]
    · simp [List.takeWhile_cons, hx]

/-! ## Lemmas on `set_headers` -/

theorem value_substr (header a : Str) (k : Nat) (ha : header.drop (k + 1) = a)
    (hne : a.dropWhile isSpaceTab ≠ []) :
    header.rdropWhile isSpaceTab ≠ [] ∧
    substr header (k + 1 + (a.takeWhile isSpaceTab).length)
      ((header.rdropWhile isSpaceTab).length - 1 -
        (k + 1 + (a.takeWhile isSpaceTab).length) + 1) = some (trimSpaceTab a) ∧
    k + 1 + (a.takeWhile isSpaceTab).length ≤ (header.rdropWhile isSpaceTab).length - 1 := by
  subst ha
  generalize hvs : k + 1 + ((header.drop (k + 1)).takeWhile isSpaceTab).length = vs
  have hdrop : header.drop vs = (header.drop (k + 1)).dropWhile isSpaceTab := by
    rw [← drop_length_takeWhile, List.drop_drop, ← hvs]
  have hsplit : header = header.take vs ++ (header.drop (k + 1)).dropWhile isSpaceTab := by
    rw [← hdrop, List.take_append_drop]
  have hbne := rdropWhile_dropWhile_ne_nil isSpaceTab _ hne
  have hr : header.rdropWhile isSpaceTab =
      header.take vs ++ ((header.drop (k + 1)).dropWhile isSpaceTab).rdropWhile isSpaceTab := by
    conv_lhs => rw [hsplit]
    exact rdropWhile_append_of_ne_nil _ _ _ hbne
  have hvslen : vs < header.length := by
    by_contra hcon
    rw [List.drop_eq_nil_of_le (by omega)] at hdrop
    exact hne hdrop.symm
  have htake : (header.take vs).length = vs := by
    rw [List.length_take]; omega
  have hpos :
      0 < (((header.drop (k + 1)).dropWhile isSpaceTab).rdropWhile isSpaceTab).length :=
    List.length_pos.mpr hbne
  refine ⟨by rw [hr]; simp [hbne], ?_, by rw [hr, List.length_append, htake]; omega⟩
  have hcount : (header.rdropWhile isSpaceTab).length - 1 - vs + 1 =
      (((header.drop (k + 1)).dropWhile isSpaceTab).rdropWhile isSpaceTab).length := by
    rw [hr, List.length_append, htake]; omega
  rw [hcount, substr, if_pos (Nat.le_of_lt hvslen), hdrop]
  have hp := (List.prefix_iff_eq_take).mp
    (List.rdropWhile_prefix isSpaceTab (l := (header.drop (k + 1)).dropWhile isSpaceTab))
  rw [← hp]; rfl

/-- In `set_headers`, when `valueStartPos` is not `npos` then `valueEndPos`
is not `npos` either and is not below `valueStartPos`: the `size_t`
subtraction `valueEndPos - valueStartPos` does not wrap. -/
theorem valueEndPos_ge_valueStartPos (header : Str) (colonPos valueStartPos : Nat)
    (h : find_first_not_of header spaceTab (colonPos + 1) = some valueStartPos) :
    ∃ valueEndPos, find_last_not_of header spaceTab = some valueEndPos ∧
      valueStartPos ≤ valueEndPos := by
  rw [find_first_not_of, firstNotOfFrom_eq] at h
  split at h
  · simp at h
  · next hne =>
    obtain ⟨hr, -, hle⟩ := value_substr header _ colonPos rfl hne
    simp only [Option.some.injEq] at h
    exact ⟨_, by rw [find_last_not_of_eq, if_neg hr], by omega⟩

theorem takeWhile_length_eq_zero_iff (header : Str) (hm : ':' ∈ header) :
    (header.takeWhile (· != ':')).length = 0 ↔ header.head? = some ':' := by
  cases header with
  | nil => simp at hm
  | cons x t =>
    by_cases hx : x = ':'
    · simp [hx]
    · simp [List.takeWhile_cons, hx]

/-- One iteration of the loop of `set_headers` returns, and it appends the
name and the value of the line when the line is valid and nothing
otherwise. -/
theorem set_headers_line_eq (t : xmlhttp_http_task) (header : Str) :
    set_headers_line t header =
      some (if validHeaderLine header then
        { t with m_headerNames := t.m_headerNames ++ [lineName header],
                 m_headerValues := t.m_headerValues ++ [lineValue header] }
      else t) := by
  unfold set_headers_line find_char
  rw [findCharFrom_eq]
  by_cases hm : ':' ∈ header
  · have hz := takeWhile_length_eq_zero_iff header hm
    simp only [hm, if_true, Nat.zero_add]
    by_cases hk0 : (header.takeWhile (· != ':')).length = 0
    · have hv : validHeaderLine header = false := by
        simp [validHeaderLine, hz.mp hk0]
      simp [hk0, hv]
    · have hv : validHeaderLine header = true := by
        have : ¬ header.head? = some ':' := fun e => hk0 (hz.mpr e)
        simp [validHeaderLine, hm, this]
      have hname : substr header 0 (header.takeWhile (· != ':')).length =
          some (lineName header) := by
        simp [substr, lineName, take_length_takeWhile]
      have ha : header.drop ((header.takeWhile (· != ':')).length + 1) = afterColon header := by
        rw [afterColon, ← drop_length_takeWhile, List.drop_drop]
      simp only [hk0, if_false, hv, if_true, hname, Option.bind_eq_bind, Option.some_bind,
        find_first_not_of, ha, firstNotOfFrom_eq]
      by_cases hne : (afterColon header).dropWhile isSpaceTab = []
      · simp [hne, lineValue, trimSpaceTab]
      · obtain ⟨hr, hsub, -⟩ := value_substr header (afterColon header) _ ha hne
        simp only [hne, if_false, find_last_not_of_eq, hr, hsub, Option.some_bind, lineValue]
  · have hv : validHeaderLine header = false := by
      simp [validHeaderLine, hm]
    simp [hm, hv]

theorem foldlM_set_headers_line (lines : List Str) (t : xmlhttp_http_task) :
    lines.foldlM set_headers_line t =
      some { t with
        m_headerNames := t.m_headerNames ++ (lines.filter validHeaderLine).map lineName,
        m_headerValues := t.m_headerValues ++ (lines.filter validHeaderLine).map lineValue } := by
  induction lines generalizing t with
  | nil => simp
  | cons l ls ih =>
    rw [List.foldlM_cons, set_headers_line_eq]
    by_cases hv : validHeaderLine l = true
    · simp [hv, ih]
    · simp [hv, ih]

/-- The call `set_headers` returns exactly when the stored sequences had equal
length before the call, and it appends the names and the values of the valid
lines of the blob, in line order. -/
theorem set_headers_eq (t : xmlhttp_http_task) (blob : Str) :
    set_headers t blob =
      if t.m_headerNames.length = t.m_headerValues.length then
        some { t with
          m_headerNames :=
            t.m_headerNames ++ ((crlfLines blob).filter validHeaderLine).map lineName,
          m_headerValues :=
            t.m_headerValues ++ ((crlfLines blob).filter validHeaderLine).map lineValue }
      else none := by
  simp [set_headers, split_crlf, foldlM_set_headers_line]

/-! ## The header codec: the properties -/

theorem validHeaderLine_iff_indexOf (l : Str) :
    validHeaderLine l = true ↔ 0 < l.indexOf ':' ∧ l.indexOf ':' < l.length := by
  cases l with
  | nil => simp [validHeaderLine]
  | cons x t =>
    by_cases hx : x = ':'
    · simp [validHeaderLine, hx]
    · have hx' : ¬ ':' = x := fun e => hx e.symm
      simp [validHeaderLine, hx, hx', List.indexOf_cons, List.indexOf_lt_length]

theorem trimSpaceTab_head_last (v : Str) (c : Char)
    (h : (trimSpaceTab v).head? = some c ∨ (trimSpaceTab v).getLast? = some c) :
    isSpaceTab c = false := by
  unfold trimSpaceTab at h
  rcases h with h | h
  · -- the first character of the trimmed text is the first of `dropWhile`
    cases hb : v.dropWhile isSpaceTab with
    | nil => simp [hb] at h
    | cons x r =>
      have hx := dropWhile_head_not isSpaceTab v x r hb
      have hpre := List.rdropWhile_prefix isSpaceTab (l := x :: r)
      rw [hb] at h
      cases hr : (x :: r).rdropWhile isSpaceTab with
      | nil => simp [hr] at h
      | cons y r2 =>
        rw [hr] at h hpre
        obtain ⟨s2, hs2⟩ := hpre
        simp only [List.cons_append, List.cons.injEq] at hs2
        simp only [List.head?_cons, Option.some.injEq] at h
        rw [← h, hs2.1]
        simpa using hx
  · by_cases hne : (v.dropWhile isSpaceTab).rdropWhile isSpaceTab = []
    · simp [hne] at h
    · have := List.rdropWhile_last_not isSpaceTab _ hne
      rw [List.getLast?_eq_getLast _ hne] at h
      simp only [Option.some.injEq] at h
      rw [← h]
      simpa using this

/-- C1: for every raw header blob, `set_headers` on a fresh task returns and
stores exactly one pair per CR LF separated line that has a colon and does
not begin with it (a line whose first colon is at an index greater than 0),
in line order, the name being the text before the first colon of the line;
the other lines contribute nothing. -/
theorem set_headers_fresh_pairs (blob : Str) :
    ∃ t, set_headers xmlhttp_http_task.fresh blob = some t ∧
      get_headers_names t = ((crlfLines blob).filter validHeaderLine).map lineName ∧
      (get_headers_values t).length = ((crlfLines blob).filter validHeaderLine).length ∧
      (∀ l, validHeaderLine l = true ↔ 0 < l.indexOf ':' ∧ l.indexOf ':' < l.length) ∧
      (∀ l, validHeaderLine l = false ↔ (':' ∉ l ∨ l.head? = some ':')) := by
  refine ⟨_, by rw [set_headers_eq]; simp [xmlhttp_http_task.fresh]; rfl, ?_, ?_,
    validHeaderLine_iff_indexOf, ?_⟩
  · simp [get_headers_names]
  · simp [get_headers_values]
  · intro l
    by_cases hm : ':' ∈ l <;> simp [validHeaderLine, hm]

/-- C2: for every raw header blob, the value that `set_headers` stores for a
line with a first colon at an index greater than 0 is the text after that
colon without its leading and trailing spaces and tabs; no stored value
begins or ends with a space or a tab; and when the text after the colon is
empty or all spaces and tabs the stored value is the empty text, the pair
being stored all the same. -/
theorem set_headers_fresh_values (blob : Str) :
    ∃ t, set_headers xmlhttp_http_task.fresh blob = some t ∧
      (get_headers_names t).zip (get_headers_values t) =
        ((crlfLines blob).filter validHeaderLine).map
          (fun l => (lineName l, trimSpaceTab (afterColon l))) ∧
      (get_headers_names t).length = (get_headers_values t).length ∧
      (∀ v ∈ get_headers_values t, ∀ c,
        v.head? = some c ∨ v.getLast? = some c → isSpaceTab c = false) ∧
      (∀ l, (∀ c ∈ afterColon l, isSpaceTab c = true) → trimSpaceTab (afterColon l) = []) := by
  refine ⟨_, by rw [set_headers_eq]; simp [xmlhttp_http_task.fresh]; rfl, ?_, ?_, ?_, ?_⟩
  · simp [get_headers_names, get_headers_values, List.zip_map', lineValue]
  · simp [get_headers_names, get_headers_values]
  · intro v hv c hc
    simp only [get_headers_values, List.nil_append, List.mem_map] at hv
    obtain ⟨l, -, rfl⟩ := hv
    exact trimSpaceTab_head_last _ c hc
  · intro l hl
    have : (afterColon l).dropWhile isSpaceTab = [] := by
      rw [List.dropWhile_eq_nil_iff]; exact hl
    simp [trimSpaceTab, this]

theorem set_headers_keeps_lengths (t : xmlhttp_http_task) (blob : Str)
    (h : t.m_headerNames.length = t.m_headerValues.length) :
    ∃ t2, set_headers t blob = some t2 ∧
      t2.m_headerNames.length = t2.m_headerValues.length := by
  rw [set_headers_eq, if_pos h]
  exact ⟨_, rfl, by simp [h]⟩

theorem foldlM_run_keeps_lengths (calls : List TaskCall) (t : xmlhttp_http_task)
    (h : t.m_headerNames.length = t.m_headerValues.length) :
    ∃ t2, calls.foldlM TaskCall.run t = some t2 ∧
      t2.m_headerNames.length = t2.m_headerValues.length := by
  induction calls generalizing t with
  | nil => exact ⟨t, rfl, h⟩
  | cons c cs ih =>
    cases c with
    | on_status n =>
      simpa [TaskCall.run] using ih (set_status_code t n) (by simpa [set_status_code] using h)
    | on_headers blob =>
      obtain ⟨t2, h2, hlen⟩ := set_headers_keeps_lengths t blob h
      simpa [TaskCall.run, h2] using ih t2 hlen

/-- C3: after every sequence of `set_status_code` and `set_headers` calls on
a fresh task, with arbitrary blobs, every call has returned (the `ASSERT` at
the end of `set_headers` has held each time) and the stored names and the
stored values have the same length. -/
theorem set_headers_sequences_same_length (calls : List TaskCall) :
    ∃ t, calls.foldlM TaskCall.run xmlhttp_http_task.fresh = some t ∧
      (get_headers_names t).length = (get_headers_values t).length :=
  foldlM_run_keeps_lengths calls xmlhttp_http_task.fresh rfl

/-- C4, as the claim states it, fails: after two calls of `set_headers` with
the blob `A: b` a fresh task holds the pair twice, after one call once. -/
theorem set_headers_twice_differs :
    ¬ ((set_headers xmlhttp_http_task.fresh "A: b".toList).bind
          (fun t => set_headers t "A: b".toList) =
        set_headers xmlhttp_http_task.fresh "A: b".toList) := by
  decide

/-- C4, amended: every call of `set_headers` appends to what the task holds
the names and the values of the valid lines of the blob (the CR LF separated
lines that have a colon and do not begin with it), which depend on the blob
only; so two calls with the same blob store those pairs twice, and the task
after two calls equals the task after one call exactly when the blob has no
valid line. -/
theorem set_headers_twice_appends (t0 : xmlhttp_http_task) (blob : Str)
    (h : t0.m_headerNames.length = t0.m_headerValues.length) :
    ∃ t1 t2, set_headers t0 blob = some t1 ∧ set_headers t1 blob = some t2 ∧
      get_headers_names t1 =
        get_headers_names t0 ++ ((crlfLines blob).filter validHeaderLine).map lineName ∧
      get_headers_values t1 =
        get_headers_values t0 ++
          ((crlfLines blob).filter validHeaderLine).map (fun l => trimSpaceTab (afterColon l)) ∧
      get_headers_names t2 =
        get_headers_names t0 ++ ((crlfLines blob).filter validHeaderLine).map lineName ++
          ((crlfLines blob).filter validHeaderLine).map lineName ∧
      get_headers_values t2 =
        get_headers_values t0 ++
          ((crlfLines blob).filter validHeaderLine).map (fun l => trimSpaceTab (afterColon l)) ++
          ((crlfLines blob).filter validHeaderLine).map (fun l => trimSpaceTab (afterColon l)) ∧
      get_status_code t1 = get_status_code t0 ∧ get_status_code t2 = get_status_code t0 ∧
      (t2 = t1 ↔ (crlfLines blob).filter validHeaderLine = []) := by
  have h1 := set_headers_eq t0 blob
  rw [if_pos h] at h1
  have h2 := set_headers_eq
    { t0 with
      m_headerNames :=
        t0.m_headerNames ++ ((crlfLines blob).filter validHeaderLine).map lineName
      m_headerValues :=
        t0.m_headerValues ++ ((crlfLines blob).filter validHeaderLine).map lineValue } blob
  rw [if_pos (by simp [h])] at h2
  refine ⟨_, _, h1, h2, rfl, rfl, rfl, rfl, rfl, rfl, ?_⟩
  constructor
  · intro e
    have := congrArg xmlhttp_http_task.m_headerNames e
    simpa using this
  · intro e
    simp [e]

theorem set_headers_twice_appends_witness :
    xmlhttp_http_task.fresh.m_headerNames.length =
        xmlhttp_http_task.fresh.m_headerValues.length ∧
    ∃ t1 t2, set_headers xmlhttp_http_task.fresh "A: b\r\nnone".toList = some t1 ∧
      set_headers t1 "A: b\r\nnone".toList = some t2 ∧
      get_headers_names t1 = ["A".toList] ∧ get_headers_values t1 = ["b".toList] ∧
      get_headers_names t2 = ["A".toList, "A".toList] ∧
      get_headers_values t2 = ["b".toList, "b".toList] ∧
      (crlfLines "A: b\r\nnone".toList).filter validHeaderLine = ["A: b".toList] ∧
      t2 ≠ t1 := by
  obtain ⟨t1, t2, h1, h2, hn1, hv1, hn2, hv2, -, -, hiff⟩ :=
    set_headers_twice_appends xmlhttp_http_task.fresh "A: b\r\nnone".toList rfl
  have hlines :
      (crlfLines "A: b\r\nnone".toList).filter validHeaderLine = ["A: b".toList] := by
    decide
  refine ⟨rfl, t1, t2, h1, h2, ?_, ?_, ?_, ?_, hlines, ?_⟩
  · rw [hn1, hlines]; decide
  · rw [hv1, hlines]; decide
  · rw [hn2, hlines]; decide
  · rw [hv2, hlines]; decide
  · intro e
    have := hiff.mp e
    rw [hlines] at this
    exact absurd this (by simp)

/-! ## `perform_async`: lemmas on runs -/

theorem handled_emit (e : Event) (k : Run) : (Run.emit e k).handled = e :: k.handled := by
  obtain ⟨tr, exc⟩ := k
  cases exc <;> simp [Run.emit, Run.handled]

theorem handled_emits (es : List Event) (k : Run) :
    (Run.emits es k).handled = es ++ k.handled := by
  obtain ⟨tr, exc⟩ := k
  cases exc <;> simp [Run.emits, Run.handled]

theorem handled_failWith (code : HRESULT) (platform : Nat) :
    (failWith code platform).handled =
      [Event.SetNetworkErrorCode code platform, Event.XAsyncComplete S_OK 0] := rfl

theorem handled_throw (e : Exc) : (Run.throw e).handled = catchClause e := by
  simp [Run.throw, Run.handled]

theorem handled_done : Run.done.handled = [] := rfl

theorem completes_nil : CompletesAsSpecified true [] := by
  simp [CompletesAsSpecified, completions]

theorem completes_fail (code : HRESULT) (platform : Nat) (result : HRESULT) :
    CompletesAsSpecified false
      [Event.SetNetworkErrorCode code platform, Event.XAsyncComplete result 0] :=
  ⟨by simp [completions, Event.isComplete],
    fun _ => ⟨[], code, platform, result, rfl, by simp [completions]⟩⟩

theorem completes_catch (e : Exc) : CompletesAsSpecified false (catchClause e) := by
  cases e <;> exact completes_fail _ _ _

theorem completes_cons (ok : Bool) (e : Event) (tr : List Event)
    (he : e.isComplete = false) (h : CompletesAsSpecified ok tr) :
    CompletesAsSpecified ok (e :: tr) := by
  obtain ⟨hc, hx⟩ := h
  refine ⟨by simpa [completions, he] using hc, fun hok => ?_⟩
  obtain ⟨pre, c, p, r, htr, hpre⟩ := hx hok
  exact ⟨e :: pre, c, p, r, by simp [htr], by simpa [completions, he] using hpre⟩

theorem completes_append (ok : Bool) (es tr : List Event)
    (hes : ∀ e ∈ es, e.isComplete = false) (h : CompletesAsSpecified ok tr) :
    CompletesAsSpecified ok (es ++ tr) := by
  induction es with
  | nil => simpa using h
  | cons e es ih =>
    exact completes_cons ok e _ (hes e (List.mem_cons_self _ _))
      (ih fun x hx => hes x (List.mem_cons_of_mem _ hx))

theorem headerLoop_events (env : Env) (hs : List (Option Str × Option Str)) (i : Nat)
    (ua : Bool) :
    ∀ e ∈ (headerLoop env hs i ua).1, ∃ name value, e = Event.SetRequestHeader name value := by
  induction hs generalizing i ua with
  | nil => simp [headerLoop]
  | cons h rest ih =>
    obtain ⟨n, v⟩ := h
    cases n with
    | none => simpa [headerLoop] using ih (i + 1) ua
    | some n =>
      cases v with
      | none => simpa [headerLoop] using ih (i + 1) ua
      | some v =>
        cases ht : env.headerThrow i with
        | some e => simp [headerLoop, ht]
        | none =>
          intro e he
          simp only [headerLoop, ht, List.mem_cons] at he
          rcases he with rfl | he
          · exact ⟨n, v, rfl⟩
          · exact ih _ _ e he

theorem headerLoop_error (env : Env) (hs : List (Option Str × Option Str)) (i : Nat)
    (ua : Bool) (h : headersNoThrow env hs i = false) :
    ∃ e, (headerLoop env hs i ua).2 = Except.error e := by
  induction hs generalizing i ua with
  | nil => simp [headersNoThrow] at h
  | cons hd rest ih =>
    obtain ⟨n, v⟩ := hd
    cases n with
    | none => simpa [headerLoop] using ih (i + 1) ua (by simpa [headersNoThrow] using h)
    | some n =>
      cases v with
      | none => simpa [headerLoop] using ih (i + 1) ua (by simpa [headersNoThrow] using h)
      | some v =>
        cases ht : env.headerThrow i with
        | some e => exact ⟨e, by simp [headerLoop, ht]⟩
        | none =>
          have h2 : headersNoThrow env rest (i + 1) = false := by
            simpa [headersNoThrow, ht] using h
          simpa [headerLoop, ht] using ih (i + 1) _ h2

theorem str_icmp_eq_zero_iff (a b : Str) :
    str_icmp a b = 0 ↔ a.map Char.toLower = b.map Char.toLower := by
  induction a generalizing b with
  | nil => cases b <;> simp [str_icmp]
  | cons x xs ih =>
    cases b with
    | nil => simp [str_icmp]
    | cons y ys =>
      by_cases hxy : x.toLower = y.toLower
      · simp [str_icmp, hxy, ih]
      · have hne : ¬ ((x.toLower.toNat : Int) - (y.toLower.toNat : Int) = 0) := by
          intro h0
          apply hxy
          have h1 : x.toLower.toNat = y.toLower.toNat := by omega
          have h2 := congrArg Char.ofNat h1
          simpa [Char.ofNat_toNat] using h2
        simp [str_icmp, hxy, hne]

theorem headerLoop_ok (env : Env) (hs : List (Option Str × Option Str)) (i : Nat)
    (ua : Bool) (h : headersNoThrow env hs i = true) :
    headerLoop env hs i ua =
      ((nonNullHeaders hs).map (fun p => Event.SetRequestHeader p.1 p.2),
        Except.ok (ua || (nonNullHeaders hs).any fun p => isUserAgent p.1)) := by
  induction hs generalizing i ua with
  | nil => simp [headerLoop, nonNullHeaders]
  | cons hd rest ih =>
    obtain ⟨n, v⟩ := hd
    cases n with
    | none =>
      have := ih (i + 1) ua (by simpa [headersNoThrow] using h)
      simpa [headerLoop, nonNullHeaders] using this
    | some n =>
      cases v with
      | none =>
        have := ih (i + 1) ua (by simpa [headersNoThrow] using h)
        simpa [headerLoop, nonNullHeaders] using this
      | some v =>
        have h2 : env.headerThrow i = none ∧ headersNoThrow env rest (i + 1) = true := by
          simpa [headersNoThrow] using h
        have hicmp : (str_icmp n userAgentName = 0) ↔ isUserAgent n = true := by
          rw [str_icmp_eq_zero_iff]; simp [isUserAgent]
        by_cases hu : isUserAgent n = true
        · have := ih (i + 1) true h2.2
          simp only [nonNullHeaders] at this
          simp [headerLoop, nonNullHeaders, h2.1, hicmp, hu, this]
        · have := ih (i + 1) ua h2.2
          simp only [nonNullHeaders] at this
          simp [headerLoop, nonNullHeaders, h2.1, hicmp, hu, this]

theorem FAILED_E_OUTOFMEMORY : FAILED E_OUTOFMEMORY = true := by decide

theorem sendPhase_completes (call : HCCall) (env : Env) :
    CompletesAsSpecified (sendSucceeds call env) (sendPhase call env).handled := by
  rcases h1 : env.responseStreamThrow with _ | e <;>
  by_cases h2 : FAILED env.setCustomResponseStream = true <;>
  by_cases h3 : 0 < call.requestBodySize <;>
  cases h4 : call.requestBodyReadFunction <;>
  rcases h5 : env.requestStreamThrow with _ | e2 <;>
  cases h6 : env.requestStreamNull <;>
  by_cases h7 : FAILED env.initResult = true <;>
  by_cases h8 : FAILED env.sendResult = true <;>
  simp only [sendPhase, sendSucceeds, hasBody, handled_emit, handled_emits, handled_failWith,
    handled_throw, handled_done, FAILED_E_OUTOFMEMORY, h1, h2, h3, h4, h5, h6, h7, h8,
    if_true, if_false, and_true, and_false, true_and, false_and, Option.isNone_none,
    Option.isNone_some, Bool.not_true, Bool.not_false, Bool.and_true, Bool.and_false,
    Bool.true_and, Bool.false_and, Bool.or_true, Bool.or_false, Bool.true_or, Bool.false_or,
    decide_True, decide_False, List.nil_append, List.cons_append, Bool.false_eq_true,
    not_false_eq_true, not_true_eq_false, decide_not, Bool.not_eq_true] <;>
  repeat' (first
    | exact completes_nil
    | exact completes_fail _ _ _
    | exact completes_catch _
    | refine completes_cons _ _ _ rfl ?_)

theorem headerLoop_not_complete (env : Env) (hs : List (Option Str × Option Str)) (i : Nat)
    (ua : Bool) : ∀ e ∈ (headerLoop env hs i ua).1, e.isComplete = false := by
  intro e he
  obtain ⟨n, v, rfl⟩ := headerLoop_events env hs i ua e he
  rfl

theorem perform_async_completes (call : HCCall) (env : Env) :
    CompletesAsSpecified (allSucceed call env) (perform_async call env) := by
  unfold perform_async perform_async_try allSucceed
  by_cases h1 : FAILED env.coCreateInstance = true
  · simp only [h1, if_true, handled_emit, handled_failWith, Bool.not_true, Bool.false_and]
    exact completes_cons _ _ _ rfl (completes_fail _ _ _)
  · rcases h2 : env.setupThrow with _ | e
    · by_cases h3 : FAILED env.openResult = true
      · simp only [h1, h2, h3, if_true, if_false, handled_emit, handled_failWith,
          Bool.not_true, Bool.false_and, Bool.and_false, Bool.false_eq_true]
        refine completes_cons _ _ _ rfl ?_
        exact completes_cons _ _ _ rfl (completes_fail _ _ _)
      · simp only [h1, h2, h3, if_false, handled_emit, handled_emits, Option.isNone_none,
          Bool.not_eq_true, Bool.not_false, Bool.true_and, Bool.and_true, Bool.false_eq_true]
        refine completes_cons _ _ _ rfl ?_
        refine completes_cons _ _ _ rfl ?_
        refine completes_cons _ _ _ rfl ?_
        refine completes_cons _ _ _ rfl ?_
        refine completes_append _ _ _ ?_ ?_
        · intro x hx
          cases hn : env.XHR_PROP_ONDATA_NEVER with
          | none => simp [hn] at hx
          | some v =>
            simp only [hn, List.mem_singleton] at hx
            rw [hx]; rfl
        · refine completes_append _ _ _ (headerLoop_not_complete _ _ _ _) ?_
          cases h4 : headersNoThrow env call.headers 0 with
          | false =>
            obtain ⟨e, he⟩ := headerLoop_error env call.headers 0 false h4
            simp only [he, handled_throw, Bool.false_and]
            exact completes_catch e
          | true =>
            rw [headerLoop_ok env call.headers 0 false h4]
            simp only [handled_emits, Bool.true_and]
            refine completes_append _ _ _ ?_ (sendPhase_completes call env)
            intro x hx
            split at hx
            · simp at hx
            · simp only [List.mem_singleton] at hx
              rw [hx]; rfl
    · simp only [h1, h2, if_false, handled_emit, handled_throw, Option.isNone_some,
        Bool.and_false, Bool.false_and, Bool.false_eq_true]
      exact completes_cons _ _ _ rfl (completes_catch e)

/-- C5: for every combination of outcomes of the set-up steps of
`perform_async` (creation of the transport, open, response-stream install,
creation and init of the request body stream, send, and any exception
thrown), the completion handle is signalled no times when every step
succeeds and once otherwise, hence at most once; when a step fails the
signal is the last call of `perform_async` and comes right after the call
that sets the network error code. -/
theorem perform_async_completes_at_most_once (call : HCCall) (env : Env) :
    completions (perform_async call env) ≤ 1 ∧
    completions (perform_async call env) = (if allSucceed call env then 0 else 1) ∧
    (allSucceed call env = false →
      ∃ pre code platform result,
        perform_async call env =
          pre ++ [Event.SetNetworkErrorCode code platform, Event.XAsyncComplete result 0] ∧
        completions pre = 0) := by
  obtain ⟨hc, hx⟩ := perform_async_completes call env
  refine ⟨?_, hc, hx⟩
  rw [hc]; split <;> omega

theorem perform_async_completes_at_most_once_witness :
    allSucceed (HCCall.get "http://a".toList [] 30)
        { Env.allOk with openResult := E_FAIL } = false ∧
    ∃ pre code platform result,
      perform_async (HCCall.get "http://a".toList [] 30)
          { Env.allOk with openResult := E_FAIL } =
        pre ++ [Event.SetNetworkErrorCode code platform, Event.XAsyncComplete result 0] ∧
      completions pre = 0 :=
  ⟨by decide,
    (perform_async_completes_at_most_once (HCCall.get "http://a".toList [] 30)
      { Env.allOk with openResult := E_FAIL }).2.2 (by decide)⟩

theorem isTransportCall_of_isFailedStep (e : Event) (h : e.isFailedStep = true) :
    e.isTransportCall = true := by
  cases e <;> simp_all [Event.isFailedStep, Event.isTransportCall]

theorem noCallAfterFailure_cons (e : Event) (tr : List Event) (he : e.isFailedStep = false) :
    noCallAfterFailure (e :: tr) = noCallAfterFailure tr := by
  simp [noCallAfterFailure, he]

theorem noCallAfterFailure_append (es tr : List Event)
    (hes : ∀ e ∈ es, e.isFailedStep = false) :
    noCallAfterFailure (es ++ tr) = noCallAfterFailure tr := by
  induction es with
  | nil => rfl
  | cons e es ih =>
    rw [List.cons_append, noCallAfterFailure_cons _ _ (hes e (List.mem_cons_self _ _))]
    exact ih fun x hx => hes x (List.mem_cons_of_mem _ hx)

theorem noCallAfterFailure_catch (e : Exc) : noCallAfterFailure (catchClause e) = true := by
  cases e <;> rfl

theorem noCallAfterFailure_split (tr : List Event) (h : noCallAfterFailure tr = true)
    (pre : List Event) (e : Event) (post : List Event) (htr : tr = pre ++ e :: post)
    (he : e.isFailedStep = true) : ∀ x ∈ post, x.isTransportCall = false := by
  induction tr generalizing pre with
  | nil => simp at htr
  | cons a rest ih =>
    cases pre with
    | nil =>
      simp only [List.nil_append, List.cons.injEq] at htr
      obtain ⟨rfl, rfl⟩ := htr
      intro x hx
      have hall : rest.all (fun x => !x.isTransportCall) = true := by
        simpa [noCallAfterFailure, he] using h
      simpa using List.all_eq_true.mp hall x hx
    | cons b pre2 =>
      simp only [List.cons_append, List.cons.injEq] at htr
      obtain ⟨rfl, rfl⟩ := htr
      by_cases ha : a.isFailedStep = true
      · have hall : (pre2 ++ e :: post).all (fun x => !x.isTransportCall) = true := by
          simpa [noCallAfterFailure, ha] using h
        have hmem : e ∈ pre2 ++ e :: post := by simp
        have hnot : e.isTransportCall = false := by
          simpa using List.all_eq_true.mp hall e hmem
        rw [isTransportCall_of_isFailedStep e he] at hnot
        exact absurd hnot (by simp)
      · have h2 : noCallAfterFailure (pre2 ++ e :: post) = true := by
          simpa [noCallAfterFailure, ha] using h
        exact ih h2 pre2 rfl

theorem sendPhase_noCallAfterFailure (call : HCCall) (env : Env) :
    noCallAfterFailure (sendPhase call env).handled = true := by
  rcases h1 : env.responseStreamThrow with _ | e <;>
  by_cases h2 : FAILED env.setCustomResponseStream = true <;>
  by_cases h3 : 0 < call.requestBodySize <;>
  cases h4 : call.requestBodyReadFunction <;>
  rcases h5 : env.requestStreamThrow with _ | e2 <;>
  cases h6 : env.requestStreamNull <;>
  by_cases h7 : FAILED env.initResult = true <;>
  by_cases h8 : FAILED env.sendResult = true <;>
  simp [sendPhase, handled_emit, handled_emits, handled_failWith, handled_throw, handled_done,
    FAILED_E_OUTOFMEMORY, noCallAfterFailure, noCallAfterFailure_catch, Event.isFailedStep,
    Event.isTransportCall, h1, h2, h3, h4, h5, h6, h7, h8]

theorem headerLoop_not_failed (env : Env) (hs : List (Option Str × Option Str)) (i : Nat)
    (ua : Bool) : ∀ e ∈ (headerLoop env hs i ua).1, e.isFailedStep = false := by
  intro e he
  obtain ⟨n, v, rfl⟩ := headerLoop_events env hs i ua e he
  rfl

theorem perform_async_noCallAfterFailure (call : HCCall) (env : Env) :
    noCallAfterFailure (perform_async call env) = true := by
  unfold perform_async perform_async_try
  by_cases h1 : FAILED env.coCreateInstance = true
  · simp [h1, handled_emit, handled_failWith, noCallAfterFailure, Event.isFailedStep]
  · rcases h2 : env.setupThrow with _ | e
    · by_cases h3 : FAILED env.openResult = true
      · simp [h1, h2, h3, handled_emit, handled_failWith, noCallAfterFailure,
          Event.isFailedStep, Event.isTransportCall]
      · simp only [h1, h2, h3, if_false, handled_emit, handled_emits, Bool.false_eq_true]
        rw [noCallAfterFailure_cons _ _ (by rfl),
          noCallAfterFailure_cons _ _ (by simpa [Event.isFailedStep] using h3),
          noCallAfterFailure_cons _ _ (by rfl), noCallAfterFailure_cons _ _ (by rfl),
          noCallAfterFailure_append, noCallAfterFailure_append _ _ (headerLoop_not_failed _ _ _ _)]
        · cases h4 : headersNoThrow env call.headers 0 with
          | false =>
            obtain ⟨e, he⟩ := headerLoop_error env call.headers 0 false h4
            simp only [he, handled_throw]
            exact noCallAfterFailure_catch e
          | true =>
            rw [headerLoop_ok env call.headers 0 false h4]
            simp only [handled_emits]
            rw [noCallAfterFailure_append]
            · exact sendPhase_noCallAfterFailure call env
            · intro x hx
              split at hx
              · simp at hx
              · simp only [List.mem_singleton] at hx
                rw [hx]; rfl
        · intro x hx
          cases hn : env.XHR_PROP_ONDATA_NEVER with
          | none => simp [hn] at hx
          | some v =>
            simp only [hn, List.mem_singleton] at hx
            rw [hx]; rfl
    · simp [h1, h2, handled_emit, handled_throw, noCallAfterFailure, Event.isFailedStep,
        noCallAfterFailure_catch]

/-- C6: when the open call of the transport fails in `perform_async`, the
network error code of the call is set to the code that open returned, the
completion handle is signalled, and nothing else is called: no set-property,
no set-request-header, no set-response-stream, no send.  And in every run,
no call on the transport or on the request body stream follows the first
failed step among open, response-stream install, body-stream init and
send. -/
theorem perform_async_stops_at_failure (call : HCCall) (env : Env) :
    (FAILED env.coCreateInstance = false → env.setupThrow = none →
      FAILED env.openResult = true →
      perform_async call env =
        [Event.CoCreateInstance env.coCreateInstance,
         Event.Open call.method call.url env.openResult,
         Event.SetNetworkErrorCode env.openResult (toUInt32 env.openResult),
         Event.XAsyncComplete S_OK 0]) ∧
    (∀ pre e post, perform_async call env = pre ++ e :: post → e.isFailedStep = true →
      ∀ x ∈ post, x.isTransportCall = false) := by
  constructor
  · intro h1 h2 h3
    simp [perform_async, perform_async_try, h1, h2, h3, handled_emit, handled_failWith]
  · intro pre e post htr he
    exact noCallAfterFailure_split _ (perform_async_noCallAfterFailure call env) pre e post htr he

theorem perform_async_stops_at_failure_witness :
    (FAILED ({ Env.allOk with openResult := E_FAIL } : Env).coCreateInstance = false ∧
      ({ Env.allOk with openResult := E_FAIL } : Env).setupThrow = none ∧
      FAILED ({ Env.allOk with openResult := E_FAIL } : Env).openResult = true) ∧
    perform_async (HCCall.get "http://a".toList [("Accept".toList, "*/*".toList)] 30)
        { Env.allOk with openResult := E_FAIL } =
      [Event.CoCreateInstance S_OK,
       Event.Open "GET".toList "http://a".toList E_FAIL,
       Event.SetNetworkErrorCode E_FAIL (toUInt32 E_FAIL),
       Event.XAsyncComplete S_OK 0] ∧
    ∀ x ∈ [Event.SetNetworkErrorCode E_FAIL (toUInt32 E_FAIL), Event.XAsyncComplete S_OK 0],
      x.isTransportCall = false :=
  ⟨by decide,
    (perform_async_stops_at_failure
      (HCCall.get "http://a".toList [("Accept".toList, "*/*".toList)] 30)
      { Env.allOk with openResult := E_FAIL }).1 (by decide) (by decide) (by decide),
    (perform_async_stops_at_failure
      (HCCall.get "http://a".toList [("Accept".toList, "*/*".toList)] 30)
      { Env.allOk with openResult := E_FAIL }).2
      [Event.CoCreateInstance S_OK] (Event.Open "GET".toList "http://a".toList E_FAIL) _
      (by decide) (by decide)⟩

theorem catchClause_headers (e : Exc) : (catchClause e).filterMap Event.header? = [] := by
  cases e <;> rfl

theorem sendPhase_headers (call : HCCall) (env : Env) :
    (sendPhase call env).handled.filterMap Event.header? = [] := by
  rcases h1 : env.responseStreamThrow with _ | e <;>
  by_cases h2 : FAILED env.setCustomResponseStream = true <;>
  by_cases h3 : 0 < call.requestBodySize <;>
  cases h4 : call.requestBodyReadFunction <;>
  rcases h5 : env.requestStreamThrow with _ | e2 <;>
  cases h6 : env.requestStreamNull <;>
  by_cases h7 : FAILED env.initResult = true <;>
  by_cases h8 : FAILED env.sendResult = true <;>
  simp [sendPhase, handled_emit, handled_emits, handled_failWith, handled_throw, handled_done,
    FAILED_E_OUTOFMEMORY, catchClause_headers, Event.header?, h1, h2, h3, h4, h5, h6, h7, h8]

theorem filterMap_header_comp (hs : List (Str × Str)) :
    hs.filterMap (Event.header? ∘ fun p => Event.SetRequestHeader p.1 p.2) = hs := by
  induction hs with
  | nil => rfl
  | cons h t ih => simp [Event.header?, ih]

/-- C7, as the claim states it, fails: with the transport created and open
succeeding, when the conversion of the first supplied header throws
`std::bad_alloc` the `catch` clause ends the run, and for the one supplied
header `Accept` no set-request-header call is made at all: neither `Accept`
is forwarded nor the default `User-Agent` set. -/
theorem perform_async_user_agent_throw :
    Event.Open "GET".toList "http://a".toList S_OK ∈
      perform_async (HCCall.get "http://a".toList [("Accept".toList, "*/*".toList)] 30)
        { Env.allOk with headerThrow := fun _ => some Exc.bad_alloc } ∧
    FAILED S_OK = false ∧
    (suppliedHeaders (HCCall.get "http://a".toList [("Accept".toList, "*/*".toList)] 30)).any
      (fun h => isUserAgent h.1) = false ∧
    (perform_async (HCCall.get "http://a".toList [("Accept".toList, "*/*".toList)] 30)
        { Env.allOk with headerThrow := fun _ => some Exc.bad_alloc }).filterMap
      Event.header? = [] ∧
    ¬ ((perform_async (HCCall.get "http://a".toList [("Accept".toList, "*/*".toList)] 30)
          { Env.allOk with headerThrow := fun _ => some Exc.bad_alloc }).filterMap
        Event.header? =
      suppliedHeaders (HCCall.get "http://a".toList [("Accept".toList, "*/*".toList)] 30) ++
        [(userAgentName, defaultUserAgent)]) := by
  decide

/-- C7, amended: when the transport is created, open succeeds and no
conversion of a supplied header throws, the set-request-header calls of `perform_async` are the supplied
headers, each once and in descriptor order, followed by the default
`User-Agent: libHttpClient/1.0.0.0` exactly when no supplied header is named
`User-Agent` up to the case of its letters; so the default is set once in
that case and not at all when some supplied header has that name. -/
theorem perform_async_user_agent (call : HCCall) (env : Env)
    (h1 : FAILED env.coCreateInstance = false) (h2 : env.setupThrow = none)
    (h3 : FAILED env.openResult = false) (h4 : headersNoThrow env call.headers 0 = true) :
    (perform_async call env).filterMap Event.header? =
      suppliedHeaders call ++
        (if (suppliedHeaders call).any (fun h => isUserAgent h.1) then []
         else [(userAgentName, defaultUserAgent)]) := by
  unfold perform_async perform_async_try
  simp only [h1, h2, h3, if_false, handled_emit, handled_emits, Bool.false_eq_true,
    headerLoop_ok env call.headers 0 false h4, Bool.false_or, suppliedHeaders]
  cases hn : env.XHR_PROP_ONDATA_NEVER <;>
  by_cases hu : (nonNullHeaders call.headers).any (fun h => isUserAgent h.1) = true <;>
  simp only [hu, if_true, if_false, Bool.false_eq_true] <;>
  simp [Event.header?, List.filterMap_append, filterMap_header_comp, sendPhase_headers]

theorem perform_async_user_agent_witness :
    (FAILED Env.allOk.coCreateInstance = false ∧ Env.allOk.setupThrow = none ∧
      FAILED Env.allOk.openResult = false) ∧
    (perform_async
        (HCCall.get "http://a".toList
          [("User-Agent".toList, "X".toList), ("Accept".toList, "*/*".toList)] 30)
        Env.allOk).filterMap Event.header? =
      [("User-Agent".toList, "X".toList), ("Accept".toList, "*/*".toList)] ∧
    (perform_async (HCCall.get "http://a".toList [("Accept".toList, "*/*".toList)] 30)
        Env.allOk).filterMap Event.header? =
      [("Accept".toList, "*/*".toList), ("User-Agent".toList, "libHttpClient/1.0.0.0".toList)] :=
  ⟨by decide,
    perform_async_user_agent
      (HCCall.get "http://a".toList
        [("User-Agent".toList, "X".toList), ("Accept".toList, "*/*".toList)] 30)
      Env.allOk (by decide) (by decide) (by decide) (by decide),
    perform_async_user_agent
      (HCCall.get "http://a".toList [("Accept".toList, "*/*".toList)] 30)
      Env.allOk (by decide) (by decide) (by decide) (by decide)⟩

/-- C10 at the time-out 4294968 s: the time-out property that `perform_async`
sets is 704 ms, the product 4294968000 reduced modulo 2^32, and not the
product. -/
theorem perform_async_timeout_wraps :
    (perform_async (HCCall.get "http://a".toList [] 4294968) Env.allOk).filterMap
        (fun e =>
          match e with
          | Event.SetProperty XhrProperty.TIMEOUT value => some value
          | _ => none) = [704] ∧
    704 ≠ 4294968 * 1000 ∧ 4294968 < 2 ^ 32 := by
  decide

/-! ## The request pump: the properties -/

theorem pumpInv_init (urls : List Str) : pumpInv (PumpSys.init urls) := by
  simp [pumpInv, PumpSys.init, PumpState.init]

theorem pumpInv_tickStep (s : PumpSys) (h : pumpInv s) : pumpInv (tickStep s) := by
  obtain ⟨st, pc⟩ := s
  obtain ⟨hc, hq⟩ := h
  cases pc with
  | idle => exact ⟨hc, hq⟩
  | loopTest =>
    simp only [tickStep]
    split
    · next hcond =>
      refine ⟨hc, ?_⟩
      simp only at hq ⊢
      omega
    · exact ⟨hc, hq⟩
  | popFront =>
    simp only [tickStep]
    split
    · exact ⟨hc, hq⟩
    · exact ⟨hc, hq⟩
  | callSingleX url =>
    refine ⟨hc, ?_⟩
    simp only [tickStep, incrementQueued] at hq ⊢
    omega
  | callPerformAsync url =>
    simp only [pumpInv, tickStep, performAsync, List.length_append, List.length_singleton,
      Nat.cast_add, Nat.cast_one] at hc hq ⊢
    omega

theorem pumpInv_completeStep (s : PumpSys) (h : pumpInv s) : pumpInv (completeStep s) := by
  obtain ⟨st, pc⟩ := s
  unfold completeStep
  split
  · next hlt =>
    obtain ⟨hc, hq⟩ := h
    cases pc <;>
      simp only [pumpInv, completionCallback, Nat.cast_add, Nat.cast_one] at hc hq hlt ⊢ <;>
      omega
  · exact h

theorem pumpInv_runSteps (acts : List Action) (s : PumpSys) (h : pumpInv s) :
    pumpInv (runSteps s acts) := by
  induction acts generalizing s with
  | nil => exact h
  | cons a acts ih =>
    cases a with
    | tick => exact ih _ (pumpInv_tickStep s h)
    | complete => exact ih _ (pumpInv_completeStep s h)

/-- The steps of the pump thread, taken with no completion meanwhile from
the loop test on, end in the state that `MakeHttpCallTickLoop` computes,
with the thread idle again. -/
theorem tickSteps_eq_tickLoop (fuel : Nat) (st : PumpState) (hf : st.uqueue.length ≤ fuel) :
    ∃ n st2, MakeHttpCallTickLoop fuel st = some st2 ∧
      runSteps { st := st, pc := TickPc.loopTest } (List.replicate n Action.tick) =
        { st := st2, pc := TickPc.idle } := by
  induction fuel generalizing st with
  | zero =>
    have hus : st.uqueue = [] := List.length_eq_zero.mp (Nat.le_zero.mp hf)
    exact ⟨1, st, by simp [MakeHttpCallTickLoop, hus],
      by simp [runSteps, step, tickStep, hus]⟩
  | succ fuel ih =>
    by_cases hq : st.queuedRequests < 16
    · cases hus : st.uqueue with
      | nil =>
        exact ⟨1, st, by simp [MakeHttpCallTickLoop, hus],
          by simp [runSteps, step, tickStep, hus]⟩
      | cons url rest =>
        have hlen : (MakeHttpCallSingleX { st with uqueue := rest } url).uqueue.length ≤ fuel := by
          rw [hus] at hf
          simpa [MakeHttpCallSingleX, performAsync, incrementQueued] using hf
        obtain ⟨n, st2, hloop, hrun⟩ := ih _ hlen
        refine ⟨n + 4, st2, by simp [MakeHttpCallTickLoop, hq, hus, hloop], ?_⟩
        rw [← hrun]
        simp [runSteps, List.replicate_succ, step, tickStep, hq, hus, MakeHttpCallSingleX]
    · exact ⟨1, st, by simp [MakeHttpCallTickLoop, hq],
        by simp [runSteps, step, tickStep, hq]⟩

theorem pumpInv_bounds (s : PumpSys) (h : pumpInv s) :
    0 ≤ s.st.queuedRequests ∧ s.st.queuedRequests ≤ 16 := by
  obtain ⟨st, pc⟩ := s
  obtain ⟨hc, hq⟩ := h
  cases pc <;> simp only at hc hq ⊢ <;> omega

/-- C8: in every state that the pump reaches from its initial state
(counter 0, any backlog) by any interleaving of the steps of the thread that
runs `MakeHttpCallTick` (call, loop test, pop, increment, launch) and of
completion callbacks (one decrement per launched request), the counter
`queuedRequests` is at least 0 and at most 16. -/
theorem pump_counter_bounds (urls : List Str) (acts : List Action) :
    0 ≤ (runSteps (PumpSys.init urls) acts).st.queuedRequests ∧
    (runSteps (PumpSys.init urls) acts).st.queuedRequests ≤ 16 :=
  pumpInv_bounds _ (pumpInv_runSteps acts _ (pumpInv_init urls))

theorem tickLoop_eq (fuel : Nat) (s : PumpState) (hf : s.uqueue.length ≤ fuel) :
    MakeHttpCallTickLoop fuel s =
      some { queuedRequests :=
               s.queuedRequests + (min s.uqueue.length (16 - s.queuedRequests).toNat : Nat)
             uqueue := s.uqueue.drop (min s.uqueue.length (16 - s.queuedRequests).toNat)
             launched :=
               s.launched ++ s.uqueue.take (min s.uqueue.length (16 - s.queuedRequests).toNat)
             completed := s.completed } := by
  induction fuel generalizing s with
  | zero =>
    obtain ⟨q, us, l, c⟩ := s
    have hus : us = [] := List.length_eq_zero.mp (Nat.le_zero.mp hf)
    subst hus
    simp [MakeHttpCallTickLoop]
  | succ fuel ih =>
    obtain ⟨q, us, l, c⟩ := s
    by_cases hq : q < 16
    · cases us with
      | nil => simp [MakeHttpCallTickLoop, hq]
      | cons url rest =>
        have hm : min (rest.length + 1) (16 - q).toNat =
            min rest.length (16 - (q + 1)).toNat + 1 := by
          omega
        simp only [MakeHttpCallTickLoop, hq, if_true, MakeHttpCallSingleX, performAsync,
          incrementQueued]
        rw [ih _ (by simpa using hf)]
        simp only [List.length_cons, hm, List.drop_succ_cons, List.take_succ_cons,
          Option.some.injEq, PumpState.mk.injEq, List.append_assoc, List.singleton_append,
          and_true, true_and, Nat.cast_add, Nat.cast_one]
        omega
    · have hz : (16 - q).toNat = 0 := by omega
      simp [MakeHttpCallTickLoop, hq, hz]

theorem tick_nothing_to_do (s : PumpState) (h : s.uqueue = [] ∨ 16 ≤ s.queuedRequests) :
    MakeHttpCallTick s = some s := by
  have hm : min s.uqueue.length (16 - s.queuedRequests).toNat = 0 := by
    rcases h with h | h
    · simp [h]
    · have : (16 - s.queuedRequests).toNat = 0 := by omega
      simp [this]
  rw [MakeHttpCallTick, tickLoop_eq _ s (Nat.le_refl _), hm]
  obtain ⟨q, us, l, c⟩ := s
  simp

/-- C9: for a backlog of `k` URLs and a counter `n` with `0 ≤ n ≤ 16`, one
run of `MakeHttpCallTick` with no completion meanwhile returns, launches
exactly the first `min k (16 - n)` URLs of the backlog in their order,
leaves the other URLs in the backlog in their order and raises the counter
by the number launched; a second run right after launches nothing. -/
theorem MakeHttpCallTick_launches (s : PumpState) (n : Nat)
    (hn : s.queuedRequests = n) (h16 : n ≤ 16) :
    ∃ s2, MakeHttpCallTick s = some s2 ∧
      s2.launched = s.launched ++ s.uqueue.take (min s.uqueue.length (16 - n)) ∧
      s2.uqueue = s.uqueue.drop (min s.uqueue.length (16 - n)) ∧
      s2.queuedRequests = ((n + min s.uqueue.length (16 - n) : Nat) : Int) ∧
      s2.completed = s.completed ∧
      MakeHttpCallTick s2 = some s2 := by
  have hk : (16 - s.queuedRequests).toNat = 16 - n := by omega
  refine ⟨_, tickLoop_eq _ s (Nat.le_refl _), ?_, ?_, ?_, rfl, ?_⟩
  · simp only [hk]
  · simp only [hk]
  · rw [hk, hn, Nat.cast_add]
  · apply tick_nothing_to_do
    simp only [hk]
    by_cases hle : s.uqueue.length ≤ 16 - n
    · left
      rw [Nat.min_eq_left hle]
      exact List.drop_length _
    · right
      rw [Nat.min_eq_right (by omega), hn]
      omega

theorem MakeHttpCallTick_launches_witness :
    ((14 : Int) = ((14 : Nat) : Int) ∧ 14 ≤ 16) ∧
    ∃ s2,
      MakeHttpCallTick
          { queuedRequests := 14
            uqueue := ["http://a".toList, "http://b".toList, "http://c".toList]
            launched := []
            completed := 0 } = some s2 ∧
      s2.launched = [] ++ ["http://a".toList, "http://b".toList, "http://c".toList].take
        (min ["http://a".toList, "http://b".toList, "http://c".toList].length (16 - 14)) ∧
      s2.uqueue = ["http://a".toList, "http://b".toList, "http://c".toList].drop
        (min ["http://a".toList, "http://b".toList, "http://c".toList].length (16 - 14)) ∧
      s2.queuedRequests =
        ((14 + min ["http://a".toList, "http://b".toList, "http://c".toList].length (16 - 14) :
          Nat) : Int) ∧
      s2.completed = 0 ∧
      MakeHttpCallTick s2 = some s2 :=
  ⟨by decide,
    MakeHttpCallTick_launches
      { queuedRequests := 14
        uqueue := ["http://a".toList, "http://b".toList, "http://c".toList]
        launched := []
        completed := 0 } 14 rfl (by decide)⟩

end XmlHttp
